import Mathlib

/-!
Verification development for suzaku's `src/cmd/aws_detect.rs`.

The Rust code is shallowly embedded below.  Conventions used throughout:

* JSON events are modelled as association lists from field names to the
  display strings `value_to_string` would produce; `Event::get` becomes an
  association-list lookup (`eventGet`).
* A Rust function that can panic is embedded with result type `Option _`;
  a `none` result means the Rust code panics (e.g. `unwrap`/`expect` on
  `None`, or integer division by zero).
* `HashMap` values are modelled as association lists whose list order is
  the map's (unspecified) iteration order, so order-dependence of the
  renderers is visible in the model.
* Terminal colouring, locale number formatting (`to_formatted_string`)
  and the actual drawing done by `comfy_table`/`krapslog` are abstracted:
  the embeddings keep the data that is placed into each line/cell.
-/

namespace AwsDetect

/-- Events are association lists field-name ↦ rendered value; this models
`sigma_rust::Event` restricted to the only operations the code performs on
it: `get` followed by `value_to_string`. -/
abbrev Event := List (String × String)

/-- `Event::get`: first binding of the field name, if any. -/
def eventGet (e : Event) (k : String) : Option String :=
  (e.find? (fun p => p.1 == k)).map (fun p => p.2)

/-- `sigma_rust::Rule` restricted to the metadata fields read by
`get_value_from_event`.  Fields that the Rust code renders with `{:?}`
(`status`, `level`) are stored as their Debug rendering, and the list
fields (`references`, `tags`, `falsepositives`) as string lists. -/
structure Rule where
  title : String
  id : Option String
  status : Option String
  author : Option String
  description : Option String
  references : Option (List String)
  date : Option String
  modified : Option String
  tags : Option (List String)
  falsepositives : Option (List String)
  level : Option String
deriving DecidableEq, Repr

/-- The geo lookup collaborator (`GeoIPSearch`): `convert` resolves an IP
string to a record (modelled as a string), and the three getters render
attributes of a resolved record. -/
structure GeoIPSearch where
  convert : String → Option String
  get_asn : String → String
  get_city : String → String
  get_country : String → String

/-- Rust `str::starts_with`, char-level (the patterns used are ASCII, where
byte-level and char-level prefixes coincide). -/
def strStartsWith (s p : String) : Bool := p.toList.isPrefixOf s.toList

/-- Rust `str::strip_prefix(".").unwrap()` under the knowledge that the
string starts with the one-byte prefix `.`: drop one char. -/
def strDropDot (s : String) : String := String.mk (s.toList.drop 1)

/-- Debug rendering of one `String`, as `format!("\x7b:?\x7d", s)` shows it
(escaping of inner quotes elided; values are used abstractly). -/
def debugStr (s : String) : String := "\"" ++ s ++ "\""

/-- Debug rendering of a `Vec<String>`, e.g. `["a", "b"]`. -/
def debugStrList (xs : List String) : String :=
  "[" ++ String.intercalate ", " (xs.map debugStr) ++ "]"

/-- One scanning step of Rust `str::replace`, with explicit fuel so the
definition is structural and kernel-evaluable.  With `fuel ≥ l.length`
this is exactly the left-to-right, non-overlapping replace-all of
`str::replace` for a non-empty pattern (every call site below passes a
non-empty literal pattern). -/
def replaceFuel (pat rep : List Char) : Nat → List Char → List Char
  | _, [] => []
  | 0, l => l
  | fuel + 1, c :: cs =>
    if pat.isPrefixOf (c :: cs) ∧ 0 < pat.length then
      rep ++ replaceFuel pat rep fuel ((c :: cs).drop pat.length)
    else
      c :: replaceFuel pat rep fuel cs

/-- Rust `str::replace` (for the non-empty literal patterns used in the
source). -/
def rustReplace (s pat rep : String) : String :=
  String.mk (replaceFuel pat.toList rep.toList s.toList.length s.toList)

/-- The tail of `get_value_from_event` (aws_detect.rs:692-732): dispatch of
the expression once the geo short-circuit did not return.  `none` models a
panic.  The Rust guards of the form `k == "id" && rule.id.is_some()` fall
through to the final `"-"` branch when the field is absent (no later
condition can match the same `k`), which is rendered here with `Option.getD`;
the `level` branch has no `is_some` guard in the source and `unwrap`s. -/
def resolveKey (key : String) (event : Event) (rule : Rule) : Option String :=
  if strStartsWith key "." then
    let k := strDropDot key
    match eventGet event k with
    | some v =>
      if k == "eventTime" then some (rustReplace (rustReplace v "T" " ") "Z" "")
      else some v
    | none => some "-"
  else if strStartsWith key "sigma." then
    let k := rustReplace key "sigma." ""
    if k == "title" then some rule.title
    else if k == "id" then some (rule.id.getD "-")
    else if k == "status" then some ((rule.status.map String.toLower).getD "-")
    else if k == "author" then some (rule.author.getD "-")
    else if k == "description" then some (rule.description.getD "-")
    else if k == "references" then some ((rule.references.map debugStrList).getD "-")
    else if k == "date" then some (rule.date.getD "-")
    else if k == "modified" then some (rule.modified.getD "-")
    else if k == "tags" then some ((rule.tags.map debugStrList).getD "-")
    else if k == "falsepositives" then some ((rule.falsepositives.map debugStrList).getD "-")
    else if k == "level" then rule.level.map String.toLower
    else some "-"
  else
    some "-"

/-- `get_value_from_event` (aws_detect.rs:670-733).  `none` models a panic.
The geo-cache mutation through `&mut` is irrelevant to the returned value
and is not modelled. -/
def getValueFromEvent (key : String) (event : Event) (rule : Rule)
    (geoIp : Option GeoIPSearch) : Option String :=
  match geoIp with
  | some geo =>
    match eventGet event "sourceIPAddress" with
    | some ip =>
      match geo.convert ip with
      | some rip =>
        if key == "SrcASN" then some (geo.get_asn rip)
        else if key == "SrcCity" then some (geo.get_city rip)
        else if key == "SrcCountry" then some (geo.get_country rip)
        else resolveKey key event rule
      | none => some ip
    | none => resolveKey key event rule
  | none => resolveKey key event rule

/-- A rule carrying only a title, with every optional metadata field
absent. -/
def bareRule : Rule :=
  ⟨"Test Rule", none, none, none, none, none, none, none, none, none, none⟩

/-- A geo service that resolves no IP at all. -/
def geoNoResolve : GeoIPSearch :=
  ⟨fun _ => none, fun _ => "asn", fun _ => "city", fun _ => "country"⟩

/-- Rust whitespace trimming (`str::trim`), char-level. -/
def strTrim (s : String) : String :=
  String.mk
    (((s.toList.dropWhile Char.isWhitespace).reverse.dropWhile Char.isWhitespace).reverse)

/-- The single-quote character, `trim_matches`'s argument. -/
def quoteChar : Char := Char.ofNat 39

/-- Rust `str::trim_matches(39 as char)`: strip all leading and trailing
single quotes. -/
def trimQuotes (s : String) : String :=
  String.mk
    (((s.toList.dropWhile (fun c => c == quoteChar)).reverse.dropWhile
        (fun c => c == quoteChar)).reverse)

/-- Split at the first occurrence of the separator, if any: the list shape
of Rust `line.splitn(2, sep)` (`none` ↦ one part, `some` ↦ two parts). -/
def splitOnFirst (sep : Char) : List Char → Option (List Char × List Char)
  | [] => none
  | c :: cs =>
    if c == sep then some ([], cs)
    else (splitOnFirst sep cs).map (fun p => (c :: p.1, p.2))

/-- One line of `load_profile` (aws_detect.rs:655-659): `parts.len() == 2`
holds exactly when the line contains a colon; the key is whitespace-trimmed
and the value additionally stripped of single quotes. -/
def parseLine (line : String) : Option (String × String) :=
  match splitOnFirst ':' line.toList with
  | some kv => some (strTrim (String.mk kv.1), trimQuotes (strTrim (String.mk kv.2)))
  | none => none

/-- The three synthetic geo columns (aws_detect.rs:661-663). -/
def geoSynthetics : List (String × String) :=
  [("SrcASN", "SrcASN"), ("SrcCity", "SrcCity"), ("SrcCountry", "SrcCountry")]

/-- `load_profile`'s loop (aws_detect.rs:653-666) on the already-read lines:
each parsed line appends its entry, followed by the three synthetic geo
entries when the key is exactly `SrcIP` and geo search is enabled. -/
def loadProfile : List String → Bool → List (String × String)
  | [], _ => []
  | line :: rest, geoEnabled =>
    (match parseLine line with
     | some kv =>
       kv :: (if kv.1 == "SrcIP" && geoEnabled then geoSynthetics else [])
     | none => []) ++ loadProfile rest geoEnabled

/-- Sequence a list of optional values, failing on the first `none`; used
to model a per-element `expect` (panic) inside a loop. -/
def optMapList (f : α → Option β) : List α → Option (List β)
  | [] => some []
  | a :: l =>
    match f a with
    | none => none
    | some b => (optMapList f l).map (fun bs => b :: bs)

/-- `load_profile` (aws_detect.rs:648-668) including its fallible I/O:
the file is `none` when `File::open` fails (the `expect` at line 649
panics), and a line is `none` when `reader.lines()` yields an error (the
`expect` at line 654 panics).  A `none` result models a panic. -/
def loadProfileResult (file : Option (List (Option String))) (geoEnabled : Bool) :
    Option (List (String × String)) :=
  match file with
  | none => none
  | some lines => (optMapList (fun l => l) lines).map (fun ls => loadProfile ls geoEnabled)

/-- The geo expansion step of `load_profile`, expressed on a finished
profile: after every entry whose key is `SrcIP` insert the three synthetic
entries. -/
def expandGeo : List (String × String) → List (String × String)
  | [] => []
  | e :: rest => (if e.1 == "SrcIP" then e :: geoSynthetics else [e]) ++ expandGeo rest

/-- Replace the first occurrence (only) of a character. -/
def replaceFirstChar (a b : Char) : List Char → List Char
  | [] => []
  | c :: cs => if c == a then b :: cs else c :: replaceFirstChar a b cs

/-- Modelled from the spec: the display transform the spec ascribes to
`eventTime` — "its `T` separator replaced with a space and trailing `Z`
removed", no other characters altered.  Used only to compare the spec's
words against the source behaviour. -/
def specEventTimeDisplay (s : String) : String :=
  let l := replaceFirstChar 'T' ' ' s.toList
  String.mk (if l.getLast? == some 'Z' then l.dropLast else l)

/-- `DetectionSummary` (aws_detect.rs:25-35).  The `HashMap`s become
association lists whose order stands for the map's iteration order;
`HashSet<String>` becomes a list; timestamps are `i64` seconds. -/
structure DetectionSummary where
  author_titles : List (String × List String)
  timestamps : List Int
  total_events : Nat
  event_with_hits : Nat
  dates_with_hits : List (String × List (String × Nat))
  level_with_hits : List (String × List (String × Nat))
  first_event_time : Option Int
  last_event_time : Option Int
deriving DecidableEq, Repr

/-- `HashMap::get` on the association-list model. -/
def lookupA (m : List (String × α)) (k : String) : Option α :=
  (m.find? (fun p => p.1 == k)).map (fun p => p.2)

/-- The fixed severity order every summary renderer iterates
(aws_detect.rs:365-388). -/
def levelsOrder : List String :=
  ["critical", "high", "medium", "low", "informational"]

/-- The data printed on one per-severity summary line
(aws_detect.rs:420-431): either the four numbers of the formatted line
`Total | Unique L detections: T (p1%) | U (p2%)`, or the literal
`0 (0%) | 0 (0%)` line for a severity with no recorded hits.  Colour and
locale digit grouping are abstracted. -/
inductive LevelLine where
  | counts (totalHits pctTotal uniq pctUniq : Nat)
  | zero
deriving DecidableEq, Repr

/-- One iteration of `print_summary_levels`' loop (aws_detect.rs:416-433).
`none` models the panic of the Rust `usize` divisions
`total_hits * 100 / sum.event_with_hits` and
`uniq_hits * 100 / sum.event_with_hits` when `event_with_hits == 0`. -/
def levelLine (sum : DetectionSummary) (level : String) : Option LevelLine :=
  match lookupA sum.level_with_hits level with
  | some hits =>
    if sum.event_with_hits = 0 then none
    else
      let uniqHits := hits.length
      let totalHits := (hits.map (fun p => p.2)).sum
      some (LevelLine.counts totalHits (totalHits * 100 / sum.event_with_hits)
        uniqHits (uniqHits * 100 / sum.event_with_hits))
  | none => some LevelLine.zero

/-- `print_summary_levels` (aws_detect.rs:415-435); `none` models a panic
on any line. -/
def printSummaryLevels (sum : DetectionSummary) : Option (List LevelLine) :=
  optMapList (levelLine sum) levelsOrder

/-- The data-reduction percentage of `print_summary_header`
(aws_detect.rs:407): `(total_events - event_with_hits) as f64 * 100.0 /
total_events as f64`.  The `f64` division has no zero guard; when
`total_events == 0` the quotient is not a finite number (0.0/0.0 is NaN,
and `\x7b:.2\x7d` renders it as a non-numeric `NaN`), modelled as `none`.
Otherwise the quotient is exact in `ℚ` (the operands are small integers).
The `usize` subtraction is modelled truncated; the scan keeps
`event_with_hits ≤ total_events`, where the two agree. -/
def printSummaryHeaderPct (sum : DetectionSummary) : Option ℚ :=
  if sum.total_events = 0 then none
  else some (((sum.total_events - sum.event_with_hits : ℕ) : ℚ) * 100 / sum.total_events)

/-- What one severity contributes to `Dates with most total detections`
(aws_detect.rs:449-470): a `date (count)` item, the literal `n/a`, or
nothing at all (severity present in the map with an empty date map). -/
inductive DateLine where
  | hit (date : String) (count : Nat)
  | na
  | blank
deriving DecidableEq, Repr

/-- `Iterator::max_by_key` on `(date, count)` pairs: among equally maximal
counts the LAST element in iteration order is returned, embedded as a
right fold preferring the later element on ties. -/
def maxByKeyLast : List (String × Nat) → Option (String × Nat)
  | [] => none
  | p :: rest =>
    match maxByKeyLast rest with
    | none => some p
    | some q => if p.2 ≤ q.2 then some q else some p

/-- `print_summary_dates_with_hits` (aws_detect.rs:449-470). -/
def printSummaryDates (sum : DetectionSummary) : List DateLine :=
  levelsOrder.map (fun level =>
    match lookupA sum.dates_with_hits level with
    | some dates =>
      match maxByKeyLast dates with
      | some p => DateLine.hit p.1 p.2
      | none => DateLine.blank
    | none => DateLine.na)

/-- One cell of the top-5 leaderboard table (aws_detect.rs:472-493):
`title (count)` or the `n/a` padding. -/
inductive TableCell where
  | entry (title : String) (count : Nat)
  | na
deriving DecidableEq, Repr

/-- Insert into a count-descending list, after every element of greater or
equal count. -/
def insertHitDesc (p : String × Nat) : List (String × Nat) → List (String × Nat)
  | [] => [p]
  | q :: rest => if p.2 ≤ q.2 then q :: insertHitDesc p rest else p :: q :: rest

/-- `hits_vec.sort_by(|a, b| b.1.cmp(a.1))` (aws_detect.rs:477): Rust's
`sort_by` is stable, so ties keep iteration order; stable insertion sort
produces the same unique stably-sorted result. -/
def sortByCountDesc (l : List (String × Nat)) : List (String × Nat) :=
  l.foldl (fun acc p => insertHitDesc p acc) []

/-- `print_summary_table`'s per-severity rows (aws_detect.rs:472-493): top
five `title (count)` cells by count descending, padded with `n/a` to
exactly five. -/
def printSummaryTable (sum : DetectionSummary) : List (String × List TableCell) :=
  levelsOrder.map (fun level =>
    match lookupA sum.level_with_hits level with
    | some hits =>
      let msgs := ((sortByCountDesc hits).take 5).map
        (fun p => TableCell.entry p.1 p.2)
      (level, msgs ++ List.replicate (5 - msgs.length) TableCell.na)
    | none => (level, List.replicate 5 TableCell.na))

/-- Insert into a count-descending author list (`i128` counts), after
every element of greater or equal count. -/
def insertAuthorDesc (p : String × Int) : List (String × Int) → List (String × Int)
  | [] => [p]
  | q :: rest => if p.2 ≤ q.2 then q :: insertAuthorDesc p rest else p :: q :: rest

/-- `sorted_authors.sort_by(|a, b| (-a.1).cmp(&(-b.1)))`
(aws_detect.rs:553-554): ascending by negated count = descending by count,
stable, so ties keep iteration order. -/
def sortAuthorsDesc (l : List (String × Int)) : List (String × Int) :=
  l.foldl (fun acc p => insertAuthorDesc p acc) []

/-- One author cell, `name (count)`, truncating names longer than 27 to
their first 24 characters plus `...` (aws_detect.rs:575-584; the source
slices bytes, identical on ASCII author names). -/
def formatAuthor (p : String × Int) : String :=
  (if p.1.length ≤ 27 then p.1 else String.mk (p.1.toList.take 24) ++ "...") ++
    " (" ++ toString p.2 ++ ")"

/-- The row-count divisor `div` of `print_detected_rule_authors`
(aws_detect.rs:556-562).  Note the `% 4` in the source, not
`% table_column_num`. -/
def authorDiv (authorsNum tableColumnNum : Nat) : Nat :=
  if authorsNum ≤ tableColumnNum then 1
  else if authorsNum % 4 ≠ 0 then authorsNum / tableColumnNum + 1
  else authorsNum / tableColumnNum

/-- Column `x` of the author table (aws_detect.rs:570-586): the cells at
sorted ranks `y * cols + x` for `y < div` that exist. -/
def authorColumn (sorted : List (String × Int)) (cols div x : Nat) : List String :=
  (List.range div).filterMap (fun y =>
    (sorted.get? (y * cols + x)).map formatAuthor)

/-- `print_detected_rule_authors` (aws_detect.rs:548-604): the non-empty
columns of the author table, in column order. -/
def printDetectedRuleAuthors (counter : List (String × Int)) (cols : Nat) :
    List (List String) :=
  let sorted := sortAuthorsDesc counter
  let d := authorDiv sorted.length cols
  ((List.range cols).map (fun x => authorColumn sorted cols d x)).filter
    (fun c => !c.isEmpty)

/-- The number of rendered table rows: the height of the tallest column. -/
def numAuthorRows (counter : List (String × Int)) (cols : Nat) : Nat :=
  ((printDetectedRuleAuthors counter cols).map List.length).foldr max 0

/-- What `print_timeline_hist` (aws_detect.rs:606-646) emits: nothing,
the too-few-events warning, or a chart with `marker_num` time markers
(the drawing itself is done by the external `krapslog` crate). -/
inductive TimelineOutput where
  | noOutput
  | warning
  | chart (markerNum : Nat)
deriving DecidableEq, Repr

/-- `print_timeline_hist` (aws_detect.rs:606-646), keeping the dispatch and
the marker count `min(timestamps.len() - 2, 18)`; layout parameters
(`length`, `side_margin_size`) only affect spacing and are abstracted. -/
def printTimelineHist (timestamps : List Int) : TimelineOutput :=
  if timestamps.isEmpty then TimelineOutput.noOutput
  else if timestamps.length < 5 then TimelineOutput.warning
  else
    let timestampMarkerMax :=
      if timestamps.length < 2 then 0 else timestamps.length - 2
    TimelineOutput.chart (min timestampMarkerMax 18)

/-- A summary whose only content is a critical-severity date map with two
tied dates, for exercising the date tie-break. -/
def datesTieSum (d1 d2 : String) (c : Nat) : DetectionSummary :=
  ⟨[], [], 0, 0, [("critical", [(d1, c), (d2, c)])], [], none, none⟩

/-- A summary whose only content is a critical-severity rule-hit map with
two tied rule titles, for exercising the leaderboard tie-break. -/
def titlesTieSum (t1 t2 : String) (c : Nat) : DetectionSummary :=
  ⟨[], [], 0, 1, [], [("critical", [(t1, c), (t2, c)])], none, none⟩

/-- A summary with zero scanned events but a recorded critical hit, the
divide-by-zero configuration of the percentage renderers. -/
def zeroDivSum : DetectionSummary :=
  ⟨[], [], 0, 0, [], [("critical", [("RuleA", 1)])], none, none⟩

/-- CLAIM C1: resolving `sigma.level` against a rule whose `level` metadata
is absent does NOT return `"-"`: the source `unwrap`s `rule.level` without
an `is_some` guard (aws_detect.rs:726), so it panics (modelled `none`) —
while every sibling field, e.g. `sigma.id`, falls through to `"-"` when
absent, which is what the spec describes for `level` as well. -/
theorem sigmaLevel_absent_panics :
    getValueFromEvent "sigma.level" [] bareRule none = none ∧
    getValueFromEvent "sigma.id" [] bareRule none = some "-" ∧
    getValueFromEvent "sigma.unknownname" [] bareRule none = some "-" := by
  refine ⟨rfl, rfl, rfl⟩

/-- CLAIM C4: when geo is enabled and the event has a `sourceIPAddress`
that the geo service does not resolve, the extractor returns the raw IP
string for every expression (aws_detect.rs:688, the early `return ip`). -/
theorem geo_unresolved_returns_raw_ip (key : String) (event : Event)
    (rule : Rule) (geo : GeoIPSearch) (ip : String)
    (hip : eventGet event "sourceIPAddress" = some ip)
    (hconv : geo.convert ip = none) :
    getValueFromEvent key event rule (some geo) = some ip := by
  simp [getValueFromEvent, hip, hconv]

/-- Witness for `geo_unresolved_returns_raw_ip`: the spec's own example,
an unresolvable `8.8.8.8` with profile column `SrcASN`. -/
theorem geo_unresolved_returns_raw_ip_witness :
    getValueFromEvent "SrcASN" [("sourceIPAddress", "8.8.8.8")] bareRule
      (some geoNoResolve) = some "8.8.8.8" :=
  geo_unresolved_returns_raw_ip "SrcASN" [("sourceIPAddress", "8.8.8.8")]
    bareRule geoNoResolve "8.8.8.8" rfl rfl

/-- CLAIM C10: with geo enabled but no `sourceIPAddress` field on the
event, the synthetic expressions `SrcASN`/`SrcCity`/`SrcCountry` skip the
geo branch (aws_detect.rs:677 requires the field) and, starting with
neither `.` nor `sigma.`, land in the catch-all `"-"` branch
(aws_detect.rs:731). -/
theorem geo_synthetic_without_ip_placeholder (key : String) (event : Event)
    (rule : Rule) (geo : GeoIPSearch)
    (hip : eventGet event "sourceIPAddress" = none)
    (hkey : key = "SrcASN" ∨ key = "SrcCity" ∨ key = "SrcCountry") :
    getValueFromEvent key event rule (some geo) = some "-" := by
  simp only [getValueFromEvent, hip]
  rcases hkey with h | h | h <;> subst h <;> rfl

/-- Witness for `geo_synthetic_without_ip_placeholder`: an event with no
`sourceIPAddress`, column `SrcCity`. -/
theorem geo_synthetic_without_ip_placeholder_witness :
    getValueFromEvent "SrcCity" [("eventName", "ConsoleLogin")] bareRule
      (some geoNoResolve) = some "-" :=
  geo_synthetic_without_ip_placeholder "SrcCity" [("eventName", "ConsoleLogin")]
    bareRule geoNoResolve rfl (Or.inr (Or.inl rfl))

theorem loadProfile_false_eq_filterMap (lines : List String) :
    loadProfile lines false = lines.filterMap parseLine := by
  induction lines with
  | nil => rfl
  | cons line rest ih =>
    simp only [loadProfile, List.filterMap_cons]
    cases h : parseLine line with
    | none => simpa using ih
    | some kv => simp [Bool.and_false, ih]

theorem loadProfile_true_eq_expand (lines : List String) :
    loadProfile lines true = expandGeo (loadProfile lines false) := by
  induction lines with
  | nil => rfl
  | cons line rest ih =>
    simp only [loadProfile]
    cases h : parseLine line with
    | none => simpa [expandGeo] using ih
    | some kv =>
      by_cases hk : (kv.1 == "SrcIP") = true
      · simp [expandGeo, hk, ih]
      · simp only [Bool.not_eq_true] at hk
        simp [expandGeo, hk, ih]

theorem expandGeo_append (l1 l2 : List (String × String)) :
    expandGeo (l1 ++ l2) = expandGeo l1 ++ expandGeo l2 := by
  induction l1 with
  | nil => rfl
  | cons e rest ih => simp [expandGeo, ih]

theorem expandGeo_no_src : ∀ l : List (String × String),
    (∀ e ∈ l, e.1 ≠ "SrcIP") → expandGeo l = l
  | [], _ => rfl
  | e :: rest, h => by
    have he : (e.1 == "SrcIP") = false :=
      beq_eq_false_iff_ne.mpr (h e (List.mem_cons_self e rest))
    have ih := expandGeo_no_src rest (fun x hx => h x (List.mem_cons_of_mem e hx))
    simp [expandGeo, he, ih]

/-- CLAIM C8: with geo enabled, a profile whose parsed entries contain a
single `SrcIP` entry gains exactly the three synthetic entries
(`SrcASN`,`SrcASN`), (`SrcCity`,`SrcCity`), (`SrcCountry`,`SrcCountry`)
immediately after it, in that order, with all other entries' relative
order preserved (the prefix `pre` and suffix `post` are untouched) and
exactly three entries added; with geo disabled the profile is exactly the
parsed lines, with no synthetic entries (aws_detect.rs:653-666). -/
theorem profile_geo_expansion (lines : List String)
    (pre post : List (String × String)) (v : String)
    (h1 : loadProfile lines false = pre ++ ("SrcIP", v) :: post)
    (h2 : ∀ e ∈ pre, e.1 ≠ "SrcIP") (h3 : ∀ e ∈ post, e.1 ≠ "SrcIP") :
    loadProfile lines false = lines.filterMap parseLine ∧
    loadProfile lines true = pre ++ ("SrcIP", v) :: (geoSynthetics ++ post) ∧
    (loadProfile lines true).length = (loadProfile lines false).length + 3 := by
  have hexp := loadProfile_true_eq_expand lines
  rw [h1, expandGeo_append, expandGeo_no_src pre h2] at hexp
  have hpost := expandGeo_no_src post h3
  have hcons : expandGeo (("SrcIP", v) :: post) =
      ("SrcIP", v) :: (geoSynthetics ++ post) := by
    simp [expandGeo, hpost]
  rw [hcons] at hexp
  refine ⟨loadProfile_false_eq_filterMap lines, hexp, ?_⟩
  rw [hexp, h1]
  simp [geoSynthetics]
  omega

/-- Witness for `profile_geo_expansion`: a three-line profile whose middle
entry is `SrcIP`. -/
theorem profile_geo_expansion_witness :
    loadProfile ["Time: .eventTime", "SrcIP: .sourceIPAddress", "Name: .eventName"]
        false =
      [("Time", ".eventTime")] ++ ("SrcIP", ".sourceIPAddress") :: [("Name", ".eventName")] ∧
    loadProfile ["Time: .eventTime", "SrcIP: .sourceIPAddress", "Name: .eventName"]
        false =
      ["Time: .eventTime", "SrcIP: .sourceIPAddress", "Name: .eventName"].filterMap
        parseLine ∧
    loadProfile ["Time: .eventTime", "SrcIP: .sourceIPAddress", "Name: .eventName"]
        true =
      [("Time", ".eventTime")] ++
        ("SrcIP", ".sourceIPAddress") :: (geoSynthetics ++ [("Name", ".eventName")]) ∧
    (loadProfile ["Time: .eventTime", "SrcIP: .sourceIPAddress", "Name: .eventName"]
          true).length =
      (loadProfile ["Time: .eventTime", "SrcIP: .sourceIPAddress", "Name: .eventName"]
            false).length + 3 := by
  have h := profile_geo_expansion
    ["Time: .eventTime", "SrcIP: .sourceIPAddress", "Name: .eventName"]
    [("Time", ".eventTime")] [("Name", ".eventName")] ".sourceIPAddress"
    (by decide) (by decide) (by decide)
  exact ⟨by decide, h.1, h.2.1, h.2.2⟩

theorem optMapList_eq_none (f : α → Option β) :
    ∀ l : List α, optMapList f l = none ↔ ∃ a ∈ l, f a = none
  | [] => by simp [optMapList]
  | a :: l => by
    cases h : f a with
    | none => simp [optMapList, h]
    | some b => simp [optMapList, h, Option.map_eq_none', optMapList_eq_none f l]

theorem optMapList_id_map_some (l : List α) :
    optMapList (fun x => x) (l.map some) = some l := by
  induction l with
  | nil => rfl
  | cons a l ih => simp [optMapList, ih]

/-- CLAIM C2 counterexample: `load_profile` does not return an error value
on an unreadable file or an unreadable line — it panics.  An unreadable
file (`none`) and a readable file whose second line is unreadable both
make the embedded loader panic (result `none`); there is no error-value
result at all (the result type of the source function is the bare profile
vector). -/
theorem loadProfile_unreadable_panics_cex :
    loadProfileResult none true = none ∧
    loadProfileResult (some [some "Time: .eventTime", none]) true = none :=
  ⟨rfl, rfl⟩

/-- CLAIM C2 amended: `load_profile` panics (via `expect`, modelled as
`none`) exactly when the profile file is unreadable or some line read
fails; on a fully readable file it returns the parsed profile.  It never
returns an error value the caller could handle (aws_detect.rs:649,654). -/
theorem loadProfile_panic_characterization
    (file : Option (List (Option String))) (geoEnabled : Bool) :
    (loadProfileResult file geoEnabled = none ↔
      (file = none ∨ ∃ lines, file = some lines ∧ none ∈ lines)) ∧
    (∀ lines : List String,
      loadProfileResult (some (lines.map some)) geoEnabled =
        some (loadProfile lines geoEnabled)) := by
  constructor
  · cases file with
    | none => simp [loadProfileResult]
    | some lines =>
      simp [loadProfileResult, Option.map_eq_none', optMapList_eq_none]
  · intro lines
    simp [loadProfileResult, optMapList_id_map_some]

theorem replaceFuel_single_map (a b : Char) :
    ∀ (l : List Char) (fuel : Nat), l.length ≤ fuel →
      replaceFuel [a] [b] fuel l = l.map (fun x => if a == x then b else x)
  | [], fuel, _ => by cases fuel <;> rfl
  | c :: cs, 0, h => by simp at h
  | c :: cs, fuel + 1, h => by
    have hcs : cs.length ≤ fuel := by simp at h; omega
    by_cases hac : (a == c) = true
    · have hac' : a = c := eq_of_beq hac
      subst hac'
      simp [replaceFuel, List.isPrefixOf,
        replaceFuel_single_map a b cs fuel hcs]
    · simp only [Bool.not_eq_true] at hac
      have hac' : ¬a = c := ne_of_beq_false hac
      simp [replaceFuel, List.isPrefixOf, hac, hac',
        replaceFuel_single_map a b cs fuel hcs]

theorem replaceFuel_single_del (a : Char) :
    ∀ (l : List Char) (fuel : Nat), l.length ≤ fuel →
      replaceFuel [a] [] fuel l = l.filter (fun x => !(a == x))
  | [], fuel, _ => by cases fuel <;> rfl
  | c :: cs, 0, h => by simp at h
  | c :: cs, fuel + 1, h => by
    have hcs : cs.length ≤ fuel := by simp at h; omega
    by_cases hac : (a == c) = true
    · have hac' : a = c := eq_of_beq hac
      subst hac'
      simp [replaceFuel, List.isPrefixOf,
        replaceFuel_single_del a cs fuel hcs]
    · simp only [Bool.not_eq_true] at hac
      have hac' : ¬a = c := ne_of_beq_false hac
      simp [replaceFuel, List.isPrefixOf, hac, hac',
        replaceFuel_single_del a cs fuel hcs]

theorem rustReplace_T_space (v : String) :
    rustReplace v "T" " " =
      String.mk (v.toList.map (fun x => if 'T' == x then ' ' else x)) := by
  unfold rustReplace
  exact congrArg String.mk
    (replaceFuel_single_map 'T' ' ' v.toList v.toList.length (le_refl _))

theorem rustReplace_Z_del (v : String) :
    rustReplace v "Z" "" = String.mk (v.toList.filter (fun x => !('Z' == x))) := by
  unfold rustReplace
  exact congrArg String.mk
    (replaceFuel_single_del 'Z' v.toList v.toList.length (le_refl _))

theorem resolveKey_eventTime_some (event : Event) (rule : Rule) (v : String)
    (hv : eventGet event "eventTime" = some v) :
    resolveKey ".eventTime" event rule =
      some (rustReplace (rustReplace v "T" " ") "Z" "") := by
  have h1 : strStartsWith ".eventTime" "." = true := rfl
  have h2 : strDropDot ".eventTime" = "eventTime" := rfl
  simp only [resolveKey, h1, if_true, h2, hv]
  rfl

theorem resolveKey_eventTime_none (event : Event) (rule : Rule)
    (hv : eventGet event "eventTime" = none) :
    resolveKey ".eventTime" event rule = some "-" := by
  have h1 : strStartsWith ".eventTime" "." = true := rfl
  have h2 : strDropDot ".eventTime" = "eventTime" := rfl
  simp only [resolveKey, h1, if_true, h2, hv]

/-- CLAIM C9 counterexample: resolving `.eventTime` does NOT only replace
the date-time separator `T` and drop a trailing `Z`: the source replaces
every `T` and every `Z` (aws_detect.rs:696).  On the value `"ZEBRA"` —
which has no `T` separator and no trailing `Z`, so the spec's transform
leaves it unchanged — the code deletes the leading `Z` and returns
`"EBRA"`. -/
theorem eventTime_replace_all_cex :
    getValueFromEvent ".eventTime" [("eventTime", "ZEBRA")] bareRule none =
      some "EBRA" ∧
    specEventTimeDisplay "ZEBRA" = "ZEBRA" ∧
    ("EBRA" : String) ≠ "ZEBRA" := by
  refine ⟨rfl, rfl, by decide⟩

/-- CLAIM C9 amended: resolving `.eventTime` replaces EVERY `T` of the
value by a space and removes EVERY `Z` (which coincides with the spec's
transform exactly on values with no other `T`/`Z`, such as well-formed
ISO-8601 UTC timestamps); a missing `eventTime` field resolves to `"-"`
(aws_detect.rs:692-702). -/
theorem eventTime_display_amended (event : Event) (rule : Rule) (v : String)
    (hv : eventGet event "eventTime" = some v) :
    getValueFromEvent ".eventTime" event rule none =
      some (String.mk ((v.toList.map (fun x => if 'T' == x then ' ' else x)).filter
        (fun x => !('Z' == x)))) ∧
    (∀ (event' : Event) (rule' : Rule), eventGet event' "eventTime" = none →
      getValueFromEvent ".eventTime" event' rule' none = some "-") := by
  constructor
  · show resolveKey ".eventTime" event rule = _
    rw [resolveKey_eventTime_some event rule v hv, rustReplace_T_space,
      rustReplace_Z_del]
    rfl
  · intro event' rule' hnone
    show resolveKey ".eventTime" event' rule' = _
    exact resolveKey_eventTime_none event' rule' hnone

/-- Witness for `eventTime_display_amended`: the spec's own example
timestamp renders with the `T` separator spaced and the trailing `Z`
dropped. -/
theorem eventTime_display_amended_witness :
    getValueFromEvent ".eventTime" [("eventTime", "2024-01-02T03:04:05Z")]
      bareRule none = some "2024-01-02 03:04:05" := by
  have h := eventTime_display_amended [("eventTime", "2024-01-02T03:04:05Z")]
    bareRule "2024-01-02T03:04:05Z" rfl
  rw [h.1]
  decide

/-- CLAIM C3 counterexample: the percentage computations are NOT all
guarded.  With `total_events == 0`, `event_with_hits == 0` and one
recorded critical hit, the header's data-reduction division yields a
non-numeric value instead of 0 (`none` models the unguarded `f64` 0/0,
printed `NaN`), and the per-severity line divides the `usize`
`total_hits * 100` by `event_with_hits == 0` and panics
(aws_detect.rs:407,424,426). -/
theorem summary_zero_div_cex :
    printSummaryLevels zeroDivSum = none ∧
    printSummaryHeaderPct zeroDivSum = none :=
  ⟨rfl, rfl⟩

theorem levelLine_eq_none (sum : DetectionSummary) (level : String) :
    levelLine sum level = none ↔
      ((lookupA sum.level_with_hits level).isSome ∧ sum.event_with_hits = 0) := by
  unfold levelLine
  cases h : lookupA sum.level_with_hits level with
  | none => simp [h]
  | some hits =>
    by_cases he : sum.event_with_hits = 0 <;> simp [h, he]

/-- CLAIM C3 amended: neither percentage computation is zero-guarded.
The header percentage is non-numeric (`NaN`, modelled `none`) exactly when
`total_events == 0`, and the per-severity percentage lines panic (integer
division by zero, modelled `none`) exactly when `event_with_hits == 0` and
some severity has recorded hits; severities with no recorded hits print a
literal `0 (0%) | 0 (0%)` line without dividing (aws_detect.rs:390-435). -/
theorem percentage_guard_characterization (sum : DetectionSummary) :
    (printSummaryHeaderPct sum = none ↔ sum.total_events = 0) ∧
    (printSummaryLevels sum = none ↔
      (sum.event_with_hits = 0 ∧
        ∃ level ∈ levelsOrder, (lookupA sum.level_with_hits level).isSome)) := by
  constructor
  · unfold printSummaryHeaderPct
    by_cases h : sum.total_events = 0 <;> simp [h]
  · rw [printSummaryLevels, optMapList_eq_none]
    simp only [levelLine_eq_none]
    constructor
    · rintro ⟨l, hl, hs, he⟩
      exact ⟨he, l, hl, hs⟩
    · rintro ⟨he, l, hl, hs⟩
      exact ⟨l, hl, hs, he⟩

theorem maxByKeyLast_eq_none : ∀ l : List (String × Nat),
    maxByKeyLast l = none ↔ l = []
  | [] => by simp [maxByKeyLast]
  | p :: rest => by
    cases h : maxByKeyLast rest with
    | none => simp [maxByKeyLast, h]
    | some q =>
      by_cases hle : p.2 ≤ q.2 <;> simp [maxByKeyLast, h, hle]

theorem maxByKeyLast_spec : ∀ (dates : List (String × Nat)) (p : String × Nat),
    maxByKeyLast dates = some p → p ∈ dates ∧ ∀ q ∈ dates, q.2 ≤ p.2
  | [], p, h => by simp [maxByKeyLast] at h
  | x :: rest, p, h => by
    cases hr : maxByKeyLast rest with
    | none =>
      simp only [maxByKeyLast, hr] at h
      have : rest = [] := (maxByKeyLast_eq_none rest).mp hr
      subst this
      injection h with h
      subst h
      simp
    | some q =>
      simp only [maxByKeyLast, hr] at h
      have ih := maxByKeyLast_spec rest q hr
      by_cases hle : x.2 ≤ q.2
      · rw [if_pos hle] at h
        injection h with h
        subst h
        refine ⟨List.mem_cons_of_mem x ih.1, ?_⟩
        intro r hr2
        rcases List.mem_cons.mp hr2 with h1 | h1
        · subst h1; exact hle
        · exact ih.2 r h1
      · rw [if_neg hle] at h
        injection h with h
        subst h
        refine ⟨List.mem_cons_self _ _, ?_⟩
        intro r hr2
        rcases List.mem_cons.mp hr2 with h1 | h1
        · subst h1; exact le_refl _
        · exact le_trans (ih.2 r h1) (by omega)

/-- CLAIM C5 counterexample: the max-by-count selections do NOT break ties
by key ascending.  With two dates tied in the critical date map,
`max_by_key` reports the LAST date in the map's iteration order —
`2024-01-02`, not the lexicographically smaller `2024-01-01` — and with
two rule titles tied, the stable sort keeps iteration order, putting
`RuleB` before the lexicographically smaller `RuleA`
(aws_detect.rs:453,477). -/
theorem tie_break_iteration_order_cex :
    printSummaryDates (datesTieSum "2024-01-01" "2024-01-02" 1) =
      [DateLine.hit "2024-01-02" 1, DateLine.na, DateLine.na, DateLine.na,
        DateLine.na] ∧
    ("2024-01-01" : String).toList < ("2024-01-02" : String).toList ∧
    printSummaryTable (titlesTieSum "RuleB" "RuleA" 1) =
      [("critical",
        [TableCell.entry "RuleB" 1, TableCell.entry "RuleA" 1, TableCell.na,
          TableCell.na, TableCell.na]),
       ("high", List.replicate 5 TableCell.na),
       ("medium", List.replicate 5 TableCell.na),
       ("low", List.replicate 5 TableCell.na),
       ("informational", List.replicate 5 TableCell.na)] ∧
    ("RuleA" : String).toList < ("RuleB" : String).toList := by
  refine ⟨by decide, by decide, by decide, by decide⟩

/-- CLAIM C5 amended: the reported date per severity does attain the
maximum hit count, but among tied maxima the LAST date in the map's
iteration order is chosen (not the smallest key), and the top-5
leaderboard keeps tied rule titles in iteration order after the stable
count-descending sort (not title ascending); both outputs therefore
depend on the `HashMap` iteration order (aws_detect.rs:449-493). -/
theorem max_selection_amended :
    (∀ (dates : List (String × Nat)) (p : String × Nat),
      maxByKeyLast dates = some p → p ∈ dates ∧ ∀ q ∈ dates, q.2 ≤ p.2) ∧
    (∀ (d1 d2 : String) (c : Nat),
      printSummaryDates (datesTieSum d1 d2 c) =
        [DateLine.hit d2 c, DateLine.na, DateLine.na, DateLine.na,
          DateLine.na]) ∧
    (∀ (t1 t2 : String) (c : Nat),
      printSummaryTable (titlesTieSum t1 t2 c) =
        [("critical",
          [TableCell.entry t1 c, TableCell.entry t2 c, TableCell.na,
            TableCell.na, TableCell.na]),
         ("high", List.replicate 5 TableCell.na),
         ("medium", List.replicate 5 TableCell.na),
         ("low", List.replicate 5 TableCell.na),
         ("informational", List.replicate 5 TableCell.na)]) := by
  refine ⟨maxByKeyLast_spec, ?_, ?_⟩
  · intro d1 d2 c
    simp [printSummaryDates, datesTieSum, levelsOrder, lookupA, maxByKeyLast,
      le_refl]
  · intro t1 t2 c
    simp [printSummaryTable, titlesTieSum, levelsOrder, lookupA,
      sortByCountDesc, insertHitDesc, le_refl, List.replicate]

/-- Witness for `max_selection_amended`: a singleton date map attains its
maximum, and two concrete tied dates select the later one. -/
theorem max_selection_amended_witness :
    (("2024-01-01", 3) ∈ [("2024-01-01", 3)] ∧
      ∀ q ∈ [("2024-01-01", 3)], q.2 ≤ (("2024-01-01", 3) : String × Nat).2) ∧
    printSummaryDates (datesTieSum "2024-01-01" "2024-01-02" 7) =
      [DateLine.hit "2024-01-02" 7, DateLine.na, DateLine.na, DateLine.na,
        DateLine.na] :=
  ⟨max_selection_amended.1 [("2024-01-01", 3)] ("2024-01-01", 3) (by decide),
   max_selection_amended.2.1 "2024-01-01" "2024-01-02" 7⟩

/-- CLAIM C7 counterexample: with ZERO recorded timestamps the renderer
emits nothing at all — it returns before the fewer-than-5 warning
(aws_detect.rs:607-609) — while the claim says every count below 5,
including zero, renders the warning message. -/
theorem timeline_empty_cex :
    printTimelineHist [] = TimelineOutput.noOutput ∧
    TimelineOutput.noOutput ≠ TimelineOutput.warning := by
  refine ⟨rfl, by decide⟩

/-- CLAIM C7 amended: the sparkline renderer emits nothing for an empty
timestamp list, the warning for 1 to 4 timestamps, and for 5 or more a
chart with `min(count - 2, 18)` time markers — between 3 and 18, so "up
to 18" holds (aws_detect.rs:606-634). -/
theorem timeline_threshold_amended (ts : List Int) :
    (ts = [] → printTimelineHist ts = TimelineOutput.noOutput) ∧
    (ts ≠ [] → ts.length < 5 → printTimelineHist ts = TimelineOutput.warning) ∧
    (5 ≤ ts.length →
      printTimelineHist ts = TimelineOutput.chart (min (ts.length - 2) 18) ∧
      min (ts.length - 2) 18 ≤ 18 ∧ 3 ≤ min (ts.length - 2) 18) := by
  refine ⟨?_, ?_, ?_⟩
  · intro h; subst h; rfl
  · intro h1 h2
    have h0 : ts.isEmpty = false := by
      cases ts with
      | nil => exact absurd rfl h1
      | cons a l => rfl
    simp [printTimelineHist, h0, h2]
  · intro h5
    have h0 : ts.isEmpty = false := by
      cases ts with
      | nil => simp at h5
      | cons a l => rfl
    have h2 : ¬ts.length < 5 := by omega
    have h3 : ¬ts.length < 2 := by omega
    refine ⟨by simp [printTimelineHist, h0, h2, h3], by omega, by omega⟩

/-- Witness for `timeline_threshold_amended`: zero, two and five
timestamps hit the three branches. -/
theorem timeline_threshold_amended_witness :
    printTimelineHist ([] : List Int) = TimelineOutput.noOutput ∧
    printTimelineHist [1, 2] = TimelineOutput.warning ∧
    printTimelineHist [0, 1, 2, 3, 4] = TimelineOutput.chart 3 := by
  refine ⟨(timeline_threshold_amended []).1 rfl,
    (timeline_threshold_amended [1, 2]).2.1 (by decide) (by decide), ?_⟩
  have h := ((timeline_threshold_amended [0, 1, 2, 3, 4]).2.2 (by decide)).1
  simpa using h

theorem insertAuthorDesc_length (p : String × Int) :
    ∀ l : List (String × Int), (insertAuthorDesc p l).length = l.length + 1
  | [] => rfl
  | q :: rest => by
    by_cases h : p.2 ≤ q.2 <;>
      simp [insertAuthorDesc, h, insertAuthorDesc_length p rest]

theorem sortAuthorsDesc_length (l : List (String × Int)) :
    (sortAuthorsDesc l).length = l.length := by
  have h : ∀ (l acc : List (String × Int)),
      (l.foldl (fun acc p => insertAuthorDesc p acc) acc).length =
        acc.length + l.length := by
    intro l
    induction l with
    | nil => intro acc; simp
    | cons p rest ih =>
      intro acc
      simp only [List.foldl_cons]
      rw [ih, insertAuthorDesc_length]
      simp only [List.length_cons]
      omega
  simpa [sortAuthorsDesc] using h l []

theorem authorColumn_length (sorted : List (String × Int)) (cols x : Nat) :
    ∀ div : Nat, (authorColumn sorted cols div x).length =
      ((List.range div).filter
        (fun y => decide (y * cols + x < sorted.length))).length
  | 0 => rfl
  | div + 1 => by
    unfold authorColumn
    rw [List.range_succ, List.filterMap_append, List.filter_append,
      List.length_append, List.length_append]
    have ih := authorColumn_length sorted cols x div
    unfold authorColumn at ih
    rw [ih]
    congr 1
    by_cases h : div * cols + x < sorted.length
    · rcases List.get?_eq_get h with hg
      simp [hg, h]
    · have hg : sorted.get? (div * cols + x) = none :=
        List.get?_eq_none.mpr (by omega)
      simp [hg, h]
      omega

theorem range_filter_lt_length : ∀ d B : Nat,
    ((List.range d).filter (fun y => decide (y < B))).length = min d B
  | 0, B => by simp
  | d + 1, B => by
    rw [List.range_succ, List.filter_append, List.length_append,
      range_filter_lt_length d B]
    by_cases h : d < B
    · simp [List.filter_cons, h]
      omega
    · simp [List.filter_cons, h]
      omega

theorem mul_lt_iff_lt_ceil (cols n y : Nat) (hc : 0 < cols) (hn : 0 < n) :
    y * cols < n ↔ y < (n - 1) / cols + 1 := by
  constructor
  · intro h
    have : y ≤ (n - 1) / cols := (Nat.le_div_iff_mul_le hc).mpr (by omega)
    omega
  · intro h
    have h2 : y ≤ (n - 1) / cols := by omega
    have := (Nat.le_div_iff_mul_le hc).mp h2
    omega

theorem authorColumn_zero_length (sorted : List (String × Int)) (cols div : Nat)
    (hc : 0 < cols) (hn : 0 < sorted.length) :
    (authorColumn sorted cols div 0).length =
      min div ((sorted.length - 1) / cols + 1) := by
  rw [authorColumn_length]
  have hfun : (fun y => decide (y * cols + 0 < sorted.length)) =
      (fun y => decide (y < (sorted.length - 1) / cols + 1)) := by
    funext y
    have h := mul_lt_iff_lt_ceil cols sorted.length y hc hn
    simp only [Nat.add_zero]
    by_cases hy : y * cols < sorted.length
    · simp [hy, h.mp hy]
    · have hy2 : ¬y < (sorted.length - 1) / cols + 1 := fun hz => hy (h.mpr hz)
      simp [hy]
      omega
  rw [hfun, range_filter_lt_length]

theorem filter_length_le_of_imp {p q : Nat → Bool} :
    ∀ l : List Nat, (∀ a, p a = true → q a = true) →
      (l.filter p).length ≤ (l.filter q).length
  | [], _ => le_refl 0
  | a :: l, h => by
    have ih := filter_length_le_of_imp l h
    by_cases hp : p a = true
    · have hq := h a hp
      simp [List.filter_cons, hp, hq]
      omega
    · simp only [Bool.not_eq_true] at hp
      by_cases hq : q a = true
      · simp [List.filter_cons, hp, hq]
        omega
      · simp only [Bool.not_eq_true] at hq
        simp [List.filter_cons, hp, hq]
        omega

theorem authorColumn_length_le (sorted : List (String × Int)) (cols div x : Nat) :
    (authorColumn sorted cols div x).length ≤
      (authorColumn sorted cols div 0).length := by
  rw [authorColumn_length, authorColumn_length]
  apply filter_length_le_of_imp
  intro y hy
  have hy2 := of_decide_eq_true hy
  exact decide_eq_true (by omega)

theorem foldr_max_le (m : Nat) : ∀ l : List Nat, (∀ a ∈ l, a ≤ m) →
    l.foldr max 0 ≤ m
  | [], _ => Nat.zero_le m
  | a :: l, h => by
    simp only [List.foldr_cons]
    have h1 := h a (List.mem_cons_self a l)
    have h2 := foldr_max_le m l (fun b hb => h b (List.mem_cons_of_mem a hb))
    omega

theorem foldr_max_eq (m : Nat) : ∀ l : List Nat, m ∈ l → (∀ a ∈ l, a ≤ m) →
    l.foldr max 0 = m
  | [], hm, _ => absurd hm (List.not_mem_nil m)
  | a :: l, hm, h => by
    simp only [List.foldr_cons]
    rcases List.mem_cons.mp hm with h1 | h1
    · subst h1
      have := foldr_max_le m l (fun b hb => h b (List.mem_cons_of_mem m hb))
      omega
    · have := foldr_max_eq m l h1 (fun b hb => h b (List.mem_cons_of_mem a hb))
      have ha := h a (List.mem_cons_self a l)
      omega

theorem authorDiv_pos (n cols : Nat) (hc : 0 < cols) : 0 < authorDiv n cols := by
  unfold authorDiv
  by_cases h1 : n ≤ cols
  · simp [h1]
  · simp only [h1, if_false]
    by_cases h2 : n % 4 ≠ 0
    · rw [if_pos h2]
      exact Nat.succ_pos _
    · rw [if_neg h2]
      exact Nat.div_pos (by omega) hc

/-- CLAIM C6 counterexample: with 8 authors (distinct counts, descending)
and 3 columns, the divisor uses `authors_num % 4` (aws_detect.rs:558), so
`div = 8 / 3 = 2`: the table has 2 rows, not `ceil(8/3) = 3`, and the two
lowest-ranked authors are silently dropped from the table.  And with two
authors tied at the same count, the stable sort keeps iteration order:
`bob` is listed before the alphabetically smaller `alice`. -/
theorem author_rows_cex :
    printDetectedRuleAuthors
        [("a1", 8), ("a2", 7), ("a3", 6), ("a4", 5), ("a5", 4), ("a6", 3),
          ("a7", 2), ("a8", 1)] 3 =
      [["a1 (8)", "a4 (5)"], ["a2 (7)", "a5 (4)"], ["a3 (6)", "a6 (3)"]] ∧
    numAuthorRows
        [("a1", 8), ("a2", 7), ("a3", 6), ("a4", 5), ("a5", 4), ("a6", 3),
          ("a7", 2), ("a8", 1)] 3 = 2 ∧
    (8 + 3 - 1) / 3 = 3 ∧ (2 : Nat) ≠ 3 ∧
    printDetectedRuleAuthors [("bob", 5), ("alice", 5)] 2 =
      [["bob (5)"], ["alice (5)"]] ∧
    ("alice" : String).toList < ("bob" : String).toList := by
  refine ⟨by decide, by decide, by decide, by decide, by decide, by decide⟩

/-- CLAIM C6 amended: the author leaderboard sorts descending by count
with ties kept in the map's iteration order (stable sort, not author-name
ascending), and the rendered row count is
`min(div, ceil(author_count / columns))` where
`div = 1` if `author_count ≤ columns`, else `author_count / columns + 1`
if `author_count % 4 ≠ 0` (note: modulo 4, not modulo the column count),
else `author_count / columns`.  This equals `ceil(author_count / columns)`
except when `author_count % 4 == 0`, `author_count > columns` and
`columns` does not divide `author_count`, where rows fall short of the
ceiling and trailing authors are dropped; cell `(row y, column x)` holds
the author of sorted rank `y * columns + x`, so entries fill left to right
then top to bottom (aws_detect.rs:548-604). -/
theorem author_leaderboard_amended :
    (∀ (a b : String) (c : Int),
      sortAuthorsDesc [(a, c), (b, c)] = [(a, c), (b, c)]) ∧
    (∀ (counter : List (String × Int)) (cols : Nat), 0 < cols →
      0 < counter.length →
      numAuthorRows counter cols =
        min (authorDiv counter.length cols) ((counter.length - 1) / cols + 1)) := by
  constructor
  · intro a b c
    simp [sortAuthorsDesc, insertAuthorDesc, le_refl]
  · intro counter cols hc hn
    have hslen : (sortAuthorsDesc counter).length = counter.length :=
      sortAuthorsDesc_length counter
    have hn' : 0 < (sortAuthorsDesc counter).length := by omega
    simp only [numAuthorRows, printDetectedRuleAuthors]
    rw [hslen]
    have hK0 := authorColumn_zero_length (sortAuthorsDesc counter) cols
      (authorDiv counter.length cols) hc hn'
    rw [hslen] at hK0
    rw [← hK0]
    have hK0pos : 0 < (authorColumn (sortAuthorsDesc counter) cols
        (authorDiv counter.length cols) 0).length := by
      rw [hK0]
      have hd := authorDiv_pos counter.length cols hc
      exact lt_min hd (Nat.succ_pos _)
    apply foldr_max_eq
    · -- the length of column 0 occurs in the list of column lengths
      apply List.mem_map_of_mem
      rw [List.mem_filter]
      constructor
      · exact List.mem_map_of_mem _ (List.mem_range.mpr hc)
      · cases hcol : authorColumn (sortAuthorsDesc counter) cols
          (authorDiv counter.length cols) 0 with
        | nil => rw [hcol] at hK0pos; simp at hK0pos
        | cons a l => rfl
    · intro a ha
      rcases List.mem_map.mp ha with ⟨col, hcolmem, hlen⟩
      rcases List.mem_filter.mp hcolmem with ⟨hcolmap, _⟩
      rcases List.mem_map.mp hcolmap with ⟨x, _, hx⟩
      subst hx
      subst hlen
      exact authorColumn_length_le (sortAuthorsDesc counter) cols
        (authorDiv counter.length cols) x

/-- Witness for `author_leaderboard_amended`: two tied authors keep input
order, and three authors over two columns render two rows. -/
theorem author_leaderboard_amended_witness :
    sortAuthorsDesc [("alice", 5), ("bob", 5)] = [("alice", 5), ("bob", 5)] ∧
    numAuthorRows [("x", 1), ("y", 2), ("z", 3)] 2 =
      min (authorDiv 3 2) ((3 - 1) / 2 + 1) := by
  refine ⟨author_leaderboard_amended.1 "alice" "bob" 5, ?_⟩
  have h := author_leaderboard_amended.2 [("x", 1), ("y", 2), ("z", 3)] 2
    (by decide) (by decide)
  simpa using h

end AwsDetect
